import Mathlib

/-!
Verification development for the es-codec binary serializer.

The definitions below are a shallow embedding of the TypeScript source in
src/es-codec.ts (tag table, varint codec, bigint codec, string codec, the
recursive encoder and decoder with their referrable tables, and the typed
array codec).  JavaScript values with object identity are modelled with an
explicit heap: a JSVal is either a primitive or a reference (.obj id) into
a list of heap nodes, so that two occurrences of the same object are two
.obj values with the same id.  Numbers and dates are modelled by the 64
bits of their IEEE-754 representation, since the codec only moves those
bytes around.  Machine arithmetic follows JavaScript: 32-bit operations
are expressed with explicit reductions modulo 2 ^ 32, and byte access to
DataView is expressed with explicit division and remainder by powers of
256.  The recursive encoder and decoder take a fuel argument (the source
recursion terminates on the call stack; fuel only bounds the modelled
recursion depth and is chosen large enough in every concrete statement).
-/

namespace EsCodec

instance {e a : Type} [DecidableEq e] [DecidableEq a] : DecidableEq (Except e a) := fun
  | .error x, .error y =>
    match decEq x y with
    | isTrue h => isTrue (h ▸ rfl)
    | isFalse h => isFalse fun hh => h (Except.error.inj hh)
  | .error _, .ok _ => isFalse Except.noConfusion
  | .ok _, .error _ => isFalse Except.noConfusion
  | .ok x, .ok y =>
    match decEq x y with
    | isTrue h => isTrue (h ▸ rfl)
    | isFalse h => isFalse fun hh => h (Except.ok.inj hh)

/-! Type tags, exactly as in the TYPE TAGS block of src/es-codec.ts. -/

def NULL      : Nat := 0b00000001
def UNDEFINED : Nat := 0b00000010
def TRUE      : Nat := 0b00000011
def FALSE     : Nat := 0b00000100
def REFERENCE : Nat := 0b00000101
def NUMBER    : Nat := 0b00000110
def DATE      : Nat := 0b00000111
def REGEXP    : Nat := 0b00001000
def STRING    : Nat := 0b00001001
def BIGINTN   : Nat := 0b00001010
def BIGINTP   : Nat := 0b00001011
def ARRAY     : Nat := 0b00001100
def OBJECT    : Nat := 0b00001101
def SET       : Nat := 0b00001110
def MAP       : Nat := 0b00001111

def ERROR           : Nat := 0b0100000
def EVAL_ERROR      : Nat := 0b0100001
def RANGE_ERROR     : Nat := 0b0100010
def REFERENCE_ERROR : Nat := 0b0100011
def SYNTAX_ERROR    : Nat := 0b0100100
def TYPE_ERROR      : Nat := 0b0100101
def URI_ERROR       : Nat := 0b0100110

def ARRAYBUFFER       : Nat := 0b01000000
def DATAVIEW          : Nat := 0b01000001
def INT8ARRAY         : Nat := 0b01000010
def UINT8ARRAY        : Nat := 0b01000011
def UINT8CLAMPEDARRAY : Nat := 0b01000100
def INT16ARRAY        : Nat := 0b01000101
def UINT16ARRAY       : Nat := 0b01000110
def INT32ARRAY        : Nat := 0b01000111
def UINT32ARRAY       : Nat := 0b01001000
def FLOAT32ARRAY      : Nat := 0b01001001
def FLOAT64ARRAY      : Nat := 0b01001010
def BIGINT64ARRAY     : Nat := 0b01001011
def BIGUINT64ARRAY    : Nat := 0b01001100

def EXTENSION         : Nat := 0b10000000

/-! The value universe.  A JSVal is a primitive or a heap reference. -/

/-- The seven error constructors the codec serializes. -/
inductive ErrKind
  | base
  | evalK
  | rangeK
  | referenceK
  | syntaxK
  | typeK
  | uriK
deriving DecidableEq

/-- A JavaScript value.  Objects are references into an external heap;
numbers and dates carry the 64 bits of their IEEE-754 representation. -/
inductive JSVal
  | null
  | undef
  | bool (b : Bool)
  | num (bits : Nat)
  | str (s : String)
  | bigint (i : Int)
  | date (bits : Nat)
  | regex (source flags : String)
  | obj (id : Nat)
deriving DecidableEq

/-- A heap node: one of the identity-bearing (referrable) objects.
In arr, a none element is an empty slot (a hole) and extraProps are the
extra own enumerable properties; a well-formed dense array has no holes
and no extra properties.  In err, cause is a JSVal (reading a missing
cause property yields undefined, which is representable).  A view node
carries a private copy of the bytes of its underlying buffer together
with the byte offset and the third constructor argument (element count,
or byte length for DataView), which is all the encoder reads from it. -/
inductive HNode
  | arr (elems : List (Option JSVal)) (extraProps : List (String × JSVal))
  | objRec (fields : List (String × JSVal))
  | setN (elems : List JSVal)
  | mapN (entries : List (JSVal × JSVal))
  | err (kind : ErrKind) (msg : String) (stack : Option String) (cause : JSVal)
  | arrbuf (bytes : List Nat)
  | view (tag : Nat) (bufBytes : List Nat) (byteOffset viewLength : Nat)
deriving DecidableEq

abbrev Heap := List HNode

/-- Errors thrown while encoding.  The TypeScript file src/es-codec.ts has
exactly two throwing classes, NotSerializable (which carries the offending
value) and Unreachable; the repository distributes a build, es-codec.js,
whose later revision splits NotSerializable into NotSerializableError,
BigIntTooLargeError and MalformedArrayError.  The extra constructors below
exist so that statements about those distinct kinds can be written; the
embedding of src/es-codec.ts never produces them.  hostFault models an
exception raised by the host runtime (TypeError or RangeError), and
outOfFuel is the artificial fuel bound of the model. -/
inductive EErr
  | notSerializable (v : JSVal)
  | bigIntTooLarge (v : JSVal)
  | malformedArray (v : JSVal)
  | hostFault
  | outOfFuel
deriving DecidableEq

/-- Errors thrown while decoding.  src/es-codec.ts only ever throws
Unreachable from the decoder; incompatibleCodec exists so that statements
about the IncompatibleCodec class of the distributed build can be written,
and is never produced by this embedding.  hostFault models host TypeError
or RangeError (out-of-range DataView reads and view constructions). -/
inductive DErr
  | unreachable
  | incompatibleCodec (name : String)
  | hostFault
  | outOfFuel
deriving DecidableEq

/-! IEEE-754 bit-pattern helpers, used only to model the semantics of the
JavaScript strict equality operator on numbers. -/

def f64IsNaN (bits : Nat) : Bool :=
  ((bits >>> 52) &&& 2047 == 2047) && (bits &&& 0xfffffffffffff != 0)

def f64IsZero (bits : Nat) : Bool := bits &&& 0x7fffffffffffffff == 0

/-- JavaScript strict equality, restricted to the modelled universe.
Objects compare by heap identity, numbers by value (NaN is unequal to
itself, positive and negative zero are equal), everything else by value. -/
def jsStrictEq : JSVal → JSVal → Bool
  | .num a, .num b =>
    if f64IsNaN a || f64IsNaN b then false
    else a == b || (f64IsZero a && f64IsZero b)
  | .obj i, .obj j => i == j
  | a, b => a == b

/-- Array.prototype.indexOf with strict equality; none models -1. -/
def indexOfJs (l : List JSVal) (x : JSVal) : Option Nat :=
  l.findIdx? fun y => jsStrictEq y x

/-! JavaScript 32-bit integer arithmetic, with explicit reduction
modulo 2 ^ 32. -/

def toUint32 (n : Int) : Nat := (n % (2 ^ 32 : Int)).toNat

def toInt32 (n : Int) : Int :=
  if toUint32 n < 2 ^ 31 then (toUint32 n : Int) else (toUint32 n : Int) - 2 ^ 32

/-- The JavaScript left shift: both operands to 32 bits, shift count
modulo 32, result read back as a signed 32-bit integer. -/
def jsShl (a : Int) (k : Nat) : Int := toInt32 ((toUint32 a <<< (k % 32) : Nat) : Int)

/-- The JavaScript bitwise or, as a signed 32-bit integer operation. -/
def jsOr (a b : Int) : Int := toInt32 ((toUint32 a ||| toUint32 b : Nat) : Int)

/-! Varint codec (functions varIntByteCount, encodeVarint, decodeVarint
of src/es-codec.ts).  The while loop of varIntByteCount runs on the
unsigned-32-bit shifted value; after the first shift the value is below
2 ^ 25, so at most four more iterations can test true and the structural
fuel of 5 makes the model loop exact for every input. -/

def varIntByteCountAux : Nat → Nat → Nat
  | 0, _ => 1
  | f+1, m => if 128 ≤ m then 1 + varIntByteCountAux f (m >>> 7) else 1

def varIntByteCount (num : Int) : Nat :=
  if 128 ≤ num then 1 + varIntByteCountAux 5 (toUint32 num >>> 7) else 1

/-- The byte-filling for loop of encodeVarint, indexed by the byte count.
Each byte is the low seven bits of the current value, with the high bit
set on every byte except the last; the value is then shifted right by 7
with the JavaScript unsigned shift. -/
def encodeVarintLoop : Nat → Int → List Nat
  | 0, _ => []
  | 1, num => [toUint32 num &&& 127]
  | n+2, num =>
    ((toUint32 num &&& 127) ||| 128) :: encodeVarintLoop (n+1) ((toUint32 num >>> 7 : Nat) : Int)

/-- encodeVarint of src/es-codec.ts.  Note that the source performs no
sign check: a negative input is not rejected, it simply flows through the
32-bit operations. -/
def encodeVarint (num : Int) : List Nat := encodeVarintLoop (varIntByteCount num) num

/-- The accumulation loop of decodeVarint: or the low seven bits of each
byte into the 32-bit accumulator at the current shift, stop at the first
byte with the high bit clear, throw Unreachable when the input ends on a
continuation byte. -/
def decodeVarintLoop : List Nat → Int → Nat → Except DErr (Int × List Nat)
  | [], _, _ => .error .unreachable
  | b :: rest, num, shift =>
    let num2 := jsOr num (jsShl ((b &&& 127 : Nat) : Int) shift)
    if b &&& 128 == 0 then .ok (num2, rest)
    else decodeVarintLoop rest num2 (shift + 7)

def decodeVarint (bytes : List Nat) : Except DErr (Int × List Nat) :=
  decodeVarintLoop bytes 0 0

/-! Eight-byte big-endian fields (the DataView primitives setFloat64,
getFloat64, setBigUint64 and getBigUint64, all used in big-endian mode). -/

/-- The eight big-endian bytes of a 64-bit value (the value is reduced
modulo 2 ^ 64 by the host primitive). -/
def bytes8BE (n : Nat) : List Nat :=
  [n / 2 ^ 56 % 256, n / 2 ^ 48 % 256, n / 2 ^ 40 % 256, n / 2 ^ 32 % 256,
   n / 2 ^ 24 % 256, n / 2 ^ 16 % 256, n / 2 ^ 8 % 256, n % 256]

/-- Reading an eight-byte big-endian field; running past the end of the
input is a host RangeError. -/
def readBytes8 : List Nat → Except DErr (Nat × List Nat)
  | b0 :: b1 :: b2 :: b3 :: b4 :: b5 :: b6 :: b7 :: rest =>
    .ok (b0 * 2 ^ 56 + b1 * 2 ^ 48 + b2 * 2 ^ 40 + b3 * 2 ^ 32
         + b4 * 2 ^ 24 + b5 * 2 ^ 16 + b6 * 2 ^ 8 + b7, rest)
  | _ => .error .hostFault

/-! Big integer codec (encodeBigInt and decodeBigInt of src/es-codec.ts).
The counting while loop is modelled with structural fuel 257: the count
is only ever compared against 255 and written as the single count byte
when it is at most 255, and every magnitude of 256 or more chunks yields
a count of at least 256 with this fuel, so the observable behavior is
exact for every input. -/

def bigintChunkCountAux : Nat → Nat → Nat
  | 0, _ => 0
  | f+1, m => if 0 < m then 1 + bigintChunkCountAux f (m >>> 64) else 0

def bigintChunkCount (m : Nat) : Nat := bigintChunkCountAux 257 m

/-- The chunk-writing while loop of encodeBigInt: emit the low 64 bits as
an eight-byte big-endian field, shift right by 64, repeat; the loop runs
exactly chunk-count times. -/
def bigintChunks : Nat → Nat → List Nat
  | 0, _ => []
  | f+1, m => bytes8BE (m &&& 0xffffffffffffffff) ++ bigintChunks f (m >>> 64)

/-- The magnitude taken by encodeBigInt: the input negated when negative. -/
def bigintMagnitude (b : Int) : Nat := (if b < 0 then -b else b).toNat

/-- encodeBigInt of src/es-codec.ts: count 64-bit chunks of the magnitude,
throw NotSerializable (carrying the bigint) when the count exceeds 255,
otherwise emit the sign tag, the count byte and the chunks, least
significant chunk first. -/
def encodeBigInt (b : Int) : Except EErr (List Nat) :=
  let uint64Count := bigintChunkCount (bigintMagnitude b)
  if uint64Count > 255 then .error (.notSerializable (.bigint b))
  else .ok ((if b < 0 then BIGINTN else BIGINTP)
            :: uint64Count :: bigintChunks uint64Count (bigintMagnitude b))

/-- The accumulation for loop of decodeBigInt: or each chunk into the
arbitrary-precision accumulator shifted by 64 times its index. -/
def decodeBigIntLoop : Nat → List Nat → Nat → Nat → Except DErr (Nat × List Nat)
  | 0, bytes, acc, _ => .ok (acc, bytes)
  | n+1, bytes, acc, shift =>
    match readBytes8 bytes with
    | .error e => .error e
    | .ok (chunk, rest) => decodeBigIntLoop n rest (acc ||| (chunk <<< shift)) (shift + 64)

/-- decodeBigInt of src/es-codec.ts: read the count byte, then accumulate
that many chunks.  The sign is applied by the caller (decodeImpl). -/
def decodeBigInt : List Nat → Except DErr (Nat × List Nat)
  | [] => .error .hostFault
  | len :: rest => decodeBigIntLoop len rest 0 0

/-! UTF-8 transcoding.  The source uses the host primitives TextEncoder
and TextDecoder, which the specification leaves out of scope as assumed
available; the two functions below model them.  The decoder models the
default non-fatal TextDecoder only up to replacement behavior: on byte
sequences that are not valid UTF-8 it emits the replacement code point
65533, which is enough because every byte sequence the codec ever decodes
as text was produced by the encoder. -/

def utf8EncodeChar (c : Nat) : List Nat :=
  if c < 128 then [c]
  else if c < 2048 then [192 ||| (c >>> 6), 128 ||| (c &&& 63)]
  else if c < 65536 then
    [224 ||| (c >>> 12), 128 ||| ((c >>> 6) &&& 63), 128 ||| (c &&& 63)]
  else
    [240 ||| (c >>> 18), 128 ||| ((c >>> 12) &&& 63),
     128 ||| ((c >>> 6) &&& 63), 128 ||| (c &&& 63)]

def utf8Encode (s : String) : List Nat :=
  (s.data.map fun c => utf8EncodeChar c.toNat).flatten

def utf8Cont (b : Nat) : Bool := 128 ≤ b && b < 192

def utf8DecodeOne : List Nat → Nat × List Nat
  | [] => (65533, [])
  | b0 :: rest =>
    if b0 < 128 then (b0, rest)
    else if 192 ≤ b0 && b0 < 224 then
      match rest with
      | b1 :: r1 =>
        if utf8Cont b1 then (((b0 &&& 31) <<< 6) ||| (b1 &&& 63), r1) else (65533, rest)
      | [] => (65533, [])
    else if 224 ≤ b0 && b0 < 240 then
      match rest with
      | b1 :: b2 :: r2 =>
        if utf8Cont b1 && utf8Cont b2 then
          (((b0 &&& 15) <<< 12) ||| ((b1 &&& 63) <<< 6) ||| (b2 &&& 63), r2)
        else (65533, rest)
      | _ => (65533, rest)
    else if 240 ≤ b0 && b0 < 248 then
      match rest with
      | b1 :: b2 :: b3 :: r3 =>
        if utf8Cont b1 && utf8Cont b2 && utf8Cont b3 then
          (((b0 &&& 7) <<< 18) ||| ((b1 &&& 63) <<< 12) ||| ((b2 &&& 63) <<< 6) ||| (b3 &&& 63), r3)
        else (65533, rest)
      | _ => (65533, rest)
    else (65533, rest)

def utf8DecodeLoop : Nat → List Nat → List Char
  | 0, _ => []
  | _, [] => []
  | f+1, bytes =>
    let (c, rest) := utf8DecodeOne bytes
    Char.ofNat c :: utf8DecodeLoop f rest

def utf8Decode (bytes : List Nat) : String := String.mk (utf8DecodeLoop bytes.length bytes)

/-! String codec (encodeString and decodeString of src/es-codec.ts). -/

/-- encodeString: the string tag, a varint byte length, the UTF-8 bytes. -/
def encodeString (s : String) : List Nat :=
  STRING :: (encodeVarint ((utf8Encode s).length : Int) ++ utf8Encode s)

/-- decodeString: read the varint byte length and transcode that many
bytes.  Constructing the length-limited byte view past the end of the
input is a host RangeError. -/
def decodeString (bytes : List Nat) : Except DErr (String × List Nat) := do
  let (len, rest) ← decodeVarint bytes
  if len < 0 then .error .hostFault
  else if rest.length < len.toNat then .error .hostFault
  else .ok (utf8Decode (rest.take len.toNat), rest.drop len.toNat)

/-! Leaf encoders of src/es-codec.ts. -/

def encodeNumber (bits : Nat) : List Nat := NUMBER :: bytes8BE bits

def encodeDate (bits : Nat) : List Nat := DATE :: bytes8BE bits

def encodeRegex (source flags : String) : List Nat :=
  REGEXP :: (encodeString source ++ encodeString flags)

def encodeReference (reference : Nat) : List Nat :=
  REFERENCE :: encodeVarint (reference : Int)

def encodeArrayBuffer (bytes : List Nat) : List Nat :=
  ARRAYBUFFER :: (encodeVarint (bytes.length : Int) ++ bytes)

/-- encodeTypedArray of src/es-codec.ts, applied to the observables the
source reads from the view: its tag (tagOfTypedArray), the byte length of
its underlying buffer, its byte offset, its element count (byte length
for DataView, which is what the conditional in the source returns), and
the bytes of the whole underlying buffer. -/
def encodeTypedArray (tag : Nat) (bufBytes : List Nat) (byteOffset viewLength : Nat) : List Nat :=
  tag :: (encodeVarint (bufBytes.length : Int) ++ encodeVarint (byteOffset : Int)
          ++ encodeVarint (viewLength : Int) ++ bufBytes)

/-! Error tag maps (tagOfError and constructorOfError of src/es-codec.ts). -/

def tagOfError : ErrKind → Nat
  | .base => ERROR
  | .evalK => EVAL_ERROR
  | .rangeK => RANGE_ERROR
  | .referenceK => REFERENCE_ERROR
  | .syntaxK => SYNTAX_ERROR
  | .typeK => TYPE_ERROR
  | .uriK => URI_ERROR

def constructorOfError (tag : Nat) : Except DErr ErrKind :=
  if tag == ERROR then .ok .base
  else if tag == EVAL_ERROR then .ok .evalK
  else if tag == RANGE_ERROR then .ok .rangeK
  else if tag == REFERENCE_ERROR then .ok .referenceK
  else if tag == SYNTAX_ERROR then .ok .syntaxK
  else if tag == TYPE_ERROR then .ok .typeK
  else if tag == URI_ERROR then .ok .uriK
  else .error .unreachable

/-! Typed array constructor table and host view construction. -/

/-- BYTES_PER_ELEMENT of the constructor selected by a tag (1 for the
byte-addressed DataView). -/
def bytesPerElement (tag : Nat) : Nat :=
  if tag == DATAVIEW then 1
  else if tag == INT8ARRAY then 1
  else if tag == UINT8ARRAY then 1
  else if tag == UINT8CLAMPEDARRAY then 1
  else if tag == INT16ARRAY then 2
  else if tag == UINT16ARRAY then 2
  else if tag == INT32ARRAY then 4
  else if tag == UINT32ARRAY then 4
  else if tag == FLOAT32ARRAY then 4
  else if tag == FLOAT64ARRAY then 8
  else if tag == BIGINT64ARRAY then 8
  else if tag == BIGUINT64ARRAY then 8
  else 1

/-- constructorOfTypedArray of src/es-codec.ts; the constructor itself is
represented by its tag, and an unknown tag throws Unreachable. -/
def constructorOfTypedArray (typeTag : Nat) : Except DErr Nat :=
  if typeTag == DATAVIEW then .ok DATAVIEW
  else if typeTag == INT8ARRAY then .ok INT8ARRAY
  else if typeTag == UINT8ARRAY then .ok UINT8ARRAY
  else if typeTag == UINT8CLAMPEDARRAY then .ok UINT8CLAMPEDARRAY
  else if typeTag == INT16ARRAY then .ok INT16ARRAY
  else if typeTag == UINT16ARRAY then .ok UINT16ARRAY
  else if typeTag == INT32ARRAY then .ok INT32ARRAY
  else if typeTag == UINT32ARRAY then .ok UINT32ARRAY
  else if typeTag == FLOAT32ARRAY then .ok FLOAT32ARRAY
  else if typeTag == FLOAT64ARRAY then .ok FLOAT64ARRAY
  else if typeTag == BIGINT64ARRAY then .ok BIGINT64ARRAY
  else if typeTag == BIGUINT64ARRAY then .ok BIGUINT64ARRAY
  else .error .unreachable

/-- The host view constructor, new TypedArray(buffer, byteOffset, length):
negative arguments, misaligned offsets and out-of-bounds windows raise a
host RangeError; otherwise the view over the given buffer is produced. -/
def mkTypedArray (tag : Nat) (buf : List Nat) (off len : Int) : Except DErr HNode :=
  if off < 0 ∨ len < 0 then .error .hostFault
  else if off.toNat % bytesPerElement tag = 0
          ∧ off.toNat + len.toNat * bytesPerElement tag ≤ buf.length then
    .ok (.view tag buf off.toNat len.toNat)
  else .error .hostFault

/-! Decoder state: the output heap under construction and the decoder
referrable table. -/

structure DecSt where
  heap : List HNode
  referrables : List JSVal
deriving DecidableEq

def setNode (st : DecSt) (i : Nat) (n : HNode) : DecSt :=
  ⟨st.heap.set i n, st.referrables⟩

/-- Indexing the referrable table as JavaScript does: a negative or
out-of-range index reads as undefined. -/
def jsIndex (refs : List JSVal) (i : Int) : JSVal :=
  if i < 0 then .undef else refs.getD i.toNat (.undef)

/-- Advancing the cursor past one byte (the cursor.offset += 1 skips over
the known string tags); when the input is already exhausted every
following read fails with a host RangeError, which this models eagerly. -/
def jsSkip1 : List Nat → Except DErr (List Nat)
  | [] => .error .hostFault
  | _ :: rest => .ok rest

/-- The SameValueZero comparison used by Set membership and Map keys:
like strict equality but with NaN equal to NaN. -/
def sameValueZero : JSVal → JSVal → Bool
  | .num a, .num b => a == b || (f64IsZero a && f64IsZero b) || (f64IsNaN a && f64IsNaN b)
  | .obj i, .obj j => i == j
  | a, b => a == b

/-- Property assignment result key = value on a plain object: an existing
key keeps its position and is overwritten, a new key is appended. -/
def jsRecordSet : List (String × JSVal) → String → JSVal → List (String × JSVal)
  | [], k, v => [(k, v)]
  | (k0, v0) :: rest, k, v =>
    if k0 == k then (k0, v) :: rest else (k0, v0) :: jsRecordSet rest k v

/-- Set.prototype.add with SameValueZero deduplication. -/
def jsSetAdd (elems : List JSVal) (v : JSVal) : List JSVal :=
  if elems.any fun w => sameValueZero w v then elems else elems ++ [v]

/-- Map.prototype.set with SameValueZero key comparison. -/
def jsMapSet : List (JSVal × JSVal) → JSVal → JSVal → List (JSVal × JSVal)
  | [], k, v => [(k, v)]
  | (k0, v0) :: rest, k, v =>
    if sameValueZero k0 k then (k0, v) :: rest else (k0, v0) :: jsMapSet rest k v

/-! Extensions.  An internal extension stores its name, its predicate and
its encoder or decoder closure; the closures receive the model fuel
explicitly since in the source they call back into the global encodeImpl
and decodeImpl. -/

structure EncExt where
  name : String
  whenF : JSVal → Bool
  encodeImplF : Nat → JSVal → List JSVal → Except EErr (List Nat × List JSVal)

structure DecExt where
  name : String
  decodeImplF : Nat → List Nat → DecSt → Except DErr (JSVal × List Nat × DecSt)

/-- maybeEncodeReference of src/es-codec.ts: search the referrable table
with strict equality; on a hit emit a back-reference, otherwise append
the value to the table first and only then run its encoder, so that
cycles through children resolve to back-references. -/
def maybeEncodeReference (x : JSVal) (referrables : List JSVal)
    (encoder : List JSVal → Except EErr (List Nat × List JSVal)) :
    Except EErr (List Nat × List JSVal) :=
  match indexOfJs referrables x with
  | none => encoder (referrables ++ [x])
  | some alreadyEncoded => .ok (encodeReference alreadyEncoded, referrables)

/-! The sequential child loops of the container encoders, parameterized
by the recursive encoder.  In encodeArrayGo, an empty slot makes the
spread of the mapped buffers crash concatArrayBuffers with a host
TypeError (array.map skips holes); that arm is reachable only when extra
properties compensate for holes in the length check of encodeArray. -/

def encodeArrayGo (enc : JSVal → List JSVal → Except EErr (List Nat × List JSVal)) :
    List (Option JSVal) → List JSVal → Except EErr (List Nat × List JSVal)
  | [], refs => .ok ([], refs)
  | none :: _, _ => .error .hostFault
  | some v :: vs, refs => do
    let (b, refs) ← enc v refs
    let (bs, refs) ← encodeArrayGo enc vs refs
    .ok (b ++ bs, refs)

def encodeFieldsGo (enc : JSVal → List JSVal → Except EErr (List Nat × List JSVal)) :
    List (String × JSVal) → List JSVal → Except EErr (List Nat × List JSVal)
  | [], refs => .ok ([], refs)
  | (k, v) :: fs, refs => do
    let (vb, refs) ← enc v refs
    let (rest, refs) ← encodeFieldsGo enc fs refs
    .ok (encodeString k ++ vb ++ rest, refs)

def encodeListGo (enc : JSVal → List JSVal → Except EErr (List Nat × List JSVal)) :
    List JSVal → List JSVal → Except EErr (List Nat × List JSVal)
  | [], refs => .ok ([], refs)
  | v :: vs, refs => do
    let (b, refs) ← enc v refs
    let (bs, refs) ← encodeListGo enc vs refs
    .ok (b ++ bs, refs)

def encodeEntriesGo (enc : JSVal → List JSVal → Except EErr (List Nat × List JSVal)) :
    List (JSVal × JSVal) → List JSVal → Except EErr (List Nat × List JSVal)
  | [], refs => .ok ([], refs)
  | (k, v) :: es, refs => do
    let (kb, refs) ← enc k refs
    let (vb, refs) ← enc v refs
    let (rest, refs) ← encodeEntriesGo enc es refs
    .ok (kb ++ vb ++ rest, refs)

/-- The extension loop at the end of encodeImpl: the first extension
whose predicate accepts the value encodes it (through the referrable
table); when none accepts, NotSerializable is thrown. -/
def encodeExtGo (fuel : Nat) (x : JSVal) (refs : List JSVal) :
    List EncExt → Except EErr (List Nat × List JSVal)
  | [] => .error (.notSerializable x)
  | e :: rest =>
    if e.whenF x then maybeEncodeReference x refs fun r => e.encodeImplF fuel x r
    else encodeExtGo fuel x refs rest

/-- encodeImpl of src/es-codec.ts.  The branch order follows the source:
unit values, then the primitives dispatched on their constructor, then
the containers, errors and buffer kinds through maybeEncodeReference, and
finally the extension loop.  A heap reference that resolves to no node
models an object of a kind outside the modelled universe, which in the
source falls through every constructor test into the extension loop. -/
def encodeImpl (exts : List EncExt) (H : Heap) :
    Nat → JSVal → List JSVal → Except EErr (List Nat × List JSVal)
  | 0, _, _ => .error .outOfFuel
  | fuel+1, x, referrables =>
    match x with
    | .null => .ok ([NULL], referrables)
    | .undef => .ok ([UNDEFINED], referrables)
    | .bool true => .ok ([TRUE], referrables)
    | .bool false => .ok ([FALSE], referrables)
    | .num bits => .ok (encodeNumber bits, referrables)
    | .date bits => .ok (encodeDate bits, referrables)
    | .regex source flags => .ok (encodeRegex source flags, referrables)
    | .bigint b =>
      match encodeBigInt b with
      | .error e => .error e
      | .ok bs => .ok (bs, referrables)
    | .str s => .ok (encodeString s, referrables)
    | .obj i =>
      match H[i]? with
      | none => encodeExtGo fuel x referrables exts
      | some (.arr elems extraProps) =>
        maybeEncodeReference x referrables fun refs =>
          if elems.length ≠ (elems.filterMap fun v => v).length + extraProps.length then
            .error (.notSerializable x)
          else do
            let (body, refs) ← encodeArrayGo (encodeImpl exts H fuel) elems refs
            .ok (ARRAY :: (encodeVarint (elems.length : Int) ++ body), refs)
      | some (.objRec fields) =>
        maybeEncodeReference x referrables fun refs => do
          let (body, refs) ← encodeFieldsGo (encodeImpl exts H fuel) fields refs
          .ok (OBJECT :: (encodeVarint (fields.length : Int) ++ body), refs)
      | some (.setN elems) =>
        maybeEncodeReference x referrables fun refs => do
          let (body, refs) ← encodeListGo (encodeImpl exts H fuel) elems refs
          .ok (SET :: (encodeVarint (elems.length : Int) ++ body), refs)
      | some (.mapN entries) =>
        maybeEncodeReference x referrables fun refs => do
          let (body, refs) ← encodeEntriesGo (encodeImpl exts H fuel) entries refs
          .ok (MAP :: (encodeVarint (entries.length : Int) ++ body), refs)
      | some (.err kind msg stack cause) =>
        maybeEncodeReference x referrables fun refs => do
          let (causeBytes, refs) ← encodeImpl exts H fuel cause refs
          .ok (tagOfError kind
               :: (encodeString msg ++ encodeString (stack.getD "") ++ causeBytes), refs)
      | some (.arrbuf bytes) =>
        maybeEncodeReference x referrables fun refs => .ok (encodeArrayBuffer bytes, refs)
      | some (.view tag bufBytes byteOffset viewLength) =>
        maybeEncodeReference x referrables fun refs =>
          .ok (encodeTypedArray tag bufBytes byteOffset viewLength, refs)

/-- The exported encode function with no extensions: fresh referrable
table, return the bytes. -/
def encode (H : Heap) (fuel : Nat) (x : JSVal) : Except EErr (List Nat) :=
  (encodeImpl [] H fuel x []).map fun r => r.1

/-! Decoder pieces of src/es-codec.ts. -/

/-- decodeArrayBuffer: read the varint byte length, slice that many bytes
(the host slice clamps at the end of the input), push the fresh buffer
into the referrable table on construction. -/
def decodeArrayBuffer (bytes : List Nat) (st : DecSt) :
    Except DErr (JSVal × List Nat × DecSt) := do
  let (len, bs) ← decodeVarint bytes
  let decoded := bs.take len.toNat
  let i := st.heap.length
  .ok (.obj i, bs.drop len.toNat, ⟨st.heap ++ [.arrbuf decoded], st.referrables ++ [.obj i]⟩)

/-- decodeTypedArray: read the three varints, slice the underlying buffer
bytes, look up the constructor for the tag, construct the view over the
fresh buffer at the recorded offset with the recorded length, and push it
into the referrable table on construction. -/
def decodeTypedArray (typeTag : Nat) (bytes : List Nat) (st : DecSt) :
    Except DErr (JSVal × List Nat × DecSt) := do
  let (bufferLength, bs) ← decodeVarint bytes
  let (byteOffset, bs) ← decodeVarint bs
  let (viewLength, bs) ← decodeVarint bs
  let sourceBuffer := bs.take bufferLength.toNat
  let bs := bs.drop bufferLength.toNat
  let _ ← constructorOfTypedArray typeTag
  let node ← mkTypedArray typeTag sourceBuffer byteOffset viewLength
  let i := st.heap.length
  .ok (.obj i, bs, ⟨st.heap ++ [node], st.referrables ++ [.obj i]⟩)

/-! The sequential child loops of the container decoders, parameterized
by the recursive decoder.  The source mutates each freshly allocated
composite in place while its children are decoded; the model collects the
children and writes the node once the loop ends, which is observationally
equal because no code reads the partially filled composite: a
back-reference yields the object reference (.obj id) itself. -/

def decodeElemsGo (dec : List Nat → DecSt → Except DErr (JSVal × List Nat × DecSt)) :
    Nat → List Nat → DecSt → Except DErr (List JSVal × List Nat × DecSt)
  | 0, bytes, st => .ok ([], bytes, st)
  | n+1, bytes, st => do
    let (v, bytes, st) ← dec bytes st
    let (vs, bytes, st) ← decodeElemsGo dec n bytes st
    .ok (v :: vs, bytes, st)

def decodeFieldsGo (dec : List Nat → DecSt → Except DErr (JSVal × List Nat × DecSt)) :
    Nat → List Nat → DecSt → List (String × JSVal) →
    Except DErr (List (String × JSVal) × List Nat × DecSt)
  | 0, bytes, st, acc => .ok (acc, bytes, st)
  | n+1, bytes, st, acc => do
    let bytes ← jsSkip1 bytes
    let (key, bytes) ← decodeString bytes
    let (v, bytes, st) ← dec bytes st
    decodeFieldsGo dec n bytes st (jsRecordSet acc key v)

def decodeSetGo (dec : List Nat → DecSt → Except DErr (JSVal × List Nat × DecSt)) :
    Nat → List Nat → DecSt → List JSVal →
    Except DErr (List JSVal × List Nat × DecSt)
  | 0, bytes, st, acc => .ok (acc, bytes, st)
  | n+1, bytes, st, acc => do
    let (v, bytes, st) ← dec bytes st
    decodeSetGo dec n bytes st (jsSetAdd acc v)

def decodeEntriesGo (dec : List Nat → DecSt → Except DErr (JSVal × List Nat × DecSt)) :
    Nat → List Nat → DecSt → List (JSVal × JSVal) →
    Except DErr (List (JSVal × JSVal) × List Nat × DecSt)
  | 0, bytes, st, acc => .ok (acc, bytes, st)
  | n+1, bytes, st, acc => do
    let (k, bytes, st) ← dec bytes st
    let (v, bytes, st) ← dec bytes st
    decodeEntriesGo dec n bytes st (jsMapSet acc k v)

/-- The extension lookup loop in decodeImpl: the first registered
extension whose name strictly equals the decoded name value decodes the
payload; the loop falling through reaches the final throw of Unreachable
in decodeImpl. -/
def decodeExtGo (fuel : Nat) (name : JSVal) (bytes : List Nat) (st : DecSt) :
    List DecExt → Except DErr (JSVal × List Nat × DecSt)
  | [] => .error .unreachable
  | e :: rest =>
    if jsStrictEq (.str e.name) name then e.decodeImplF fuel bytes st
    else decodeExtGo fuel name bytes st rest

/-- decodeImpl of src/es-codec.ts.  The dispatch order follows the
source: the exact-tag tests, then the error family bit, the exact raw
buffer tag, the buffer family bit, the extension bit, and the final throw
of Unreachable.  Note that decodeArray pushes its empty shell before
reading the length, that the object, set and map decoders read the length
first and then push their shell before decoding children, and that the
error arm never pushes the decoded error into the referrable table. -/
def decodeImpl (exts : List DecExt) :
    Nat → List Nat → DecSt → Except DErr (JSVal × List Nat × DecSt)
  | 0, _, _ => .error .outOfFuel
  | fuel+1, bytes, st =>
    match bytes with
    | [] => .error .hostFault
    | typeTag :: bs =>
      if typeTag == NULL then .ok (.null, bs, st)
      else if typeTag == UNDEFINED then .ok (.undef, bs, st)
      else if typeTag == TRUE then .ok (.bool true, bs, st)
      else if typeTag == FALSE then .ok (.bool false, bs, st)
      else if typeTag == REFERENCE then do
        let (reference, bs) ← decodeVarint bs
        .ok (jsIndex st.referrables reference, bs, st)
      else if typeTag == NUMBER then do
        let (bits, bs) ← readBytes8 bs
        .ok (.num bits, bs, st)
      else if typeTag == DATE then do
        let (bits, bs) ← readBytes8 bs
        .ok (.date bits, bs, st)
      else if typeTag == REGEXP then do
        let bs ← jsSkip1 bs
        let (source, bs) ← decodeString bs
        let bs ← jsSkip1 bs
        let (flags, bs) ← decodeString bs
        .ok (.regex source flags, bs, st)
      else if typeTag == BIGINTP then
        match decodeBigInt bs with
        | .error e => .error e
        | .ok (m, bs) => .ok (.bigint (m : Int), bs, st)
      else if typeTag == BIGINTN then
        match decodeBigInt bs with
        | .error e => .error e
        | .ok (m, bs) => .ok (.bigint (-(m : Int)), bs, st)
      else if typeTag == STRING then
        match decodeString bs with
        | .error e => .error e
        | .ok (s, bs) => .ok (.str s, bs, st)
      else if typeTag == ARRAY then
        let i := st.heap.length
        let st1 : DecSt := ⟨st.heap ++ [.arr [] []], st.referrables ++ [.obj i]⟩
        do
          let (len, bs) ← decodeVarint bs
          let (elems, bs, st2) ← decodeElemsGo (decodeImpl exts fuel) len.toNat bs st1
          .ok (.obj i, bs, setNode st2 i (.arr (elems.map some) []))
      else if typeTag == OBJECT then do
        let (len, bs) ← decodeVarint bs
        let i := st.heap.length
        let st1 : DecSt := ⟨st.heap ++ [.objRec []], st.referrables ++ [.obj i]⟩
        let (fields, bs, st2) ← decodeFieldsGo (decodeImpl exts fuel) len.toNat bs st1 []
        .ok (.obj i, bs, setNode st2 i (.objRec fields))
      else if typeTag == SET then do
        let (len, bs) ← decodeVarint bs
        let i := st.heap.length
        let st1 : DecSt := ⟨st.heap ++ [.setN []], st.referrables ++ [.obj i]⟩
        let (elems, bs, st2) ← decodeSetGo (decodeImpl exts fuel) len.toNat bs st1 []
        .ok (.obj i, bs, setNode st2 i (.setN elems))
      else if typeTag == MAP then do
        let (len, bs) ← decodeVarint bs
        let i := st.heap.length
        let st1 : DecSt := ⟨st.heap ++ [.mapN []], st.referrables ++ [.obj i]⟩
        let (entries, bs, st2) ← decodeEntriesGo (decodeImpl exts fuel) len.toNat bs st1 []
        .ok (.obj i, bs, setNode st2 i (.mapN entries))
      else if typeTag &&& ERROR != 0 then do
        let bs ← jsSkip1 bs
        let (message, bs) ← decodeString bs
        let bs ← jsSkip1 bs
        let (stack, bs) ← decodeString bs
        let (cause, bs, st1) ← decodeImpl exts fuel bs st
        match constructorOfError typeTag with
        | .error e => .error e
        | .ok kind =>
          let i := st1.heap.length
          .ok (.obj i, bs, ⟨st1.heap ++ [.err kind message (some stack) cause],
                            st1.referrables⟩)
      else if typeTag == ARRAYBUFFER then decodeArrayBuffer bs st
      else if typeTag &&& ARRAYBUFFER != 0 then decodeTypedArray typeTag bs st
      else if typeTag &&& EXTENSION != 0 then do
        let (name, bs, st1) ← decodeImpl exts fuel bs st
        decodeExtGo fuel name bs st1 exts
      else .error .unreachable

/-- The exported decode function with no extensions: fresh cursor, fresh
referrable table.  The source returns only the value; the model also
returns the remaining input and the output heap, which carries the
meaning of the returned object references. -/
def decode (fuel : Nat) (buffer : List Nat) : Except DErr (JSVal × List Nat × DecSt) :=
  decodeImpl [] fuel buffer ⟨[], []⟩

/-! Arithmetic facts about the JavaScript 32-bit operations. -/

theorem land127_eq_mod (m : Nat) : m &&& 127 = m % 128 := by
  have h := Nat.and_pow_two_sub_one_eq_mod m 7
  norm_num at h
  exact h

theorem shiftRight_le_self (m k : Nat) : m >>> k ≤ m := by
  rw [Nat.shiftRight_eq_div_pow]
  exact Nat.div_le_self _ _

theorem land_128_eq_zero {m : Nat} (h : m < 128) : m &&& 128 = 0 := by
  have h2 := Nat.and_two_pow m 7
  rw [Nat.testBit_lt_two_pow (lt_of_lt_of_eq h (by norm_num))] at h2
  norm_num at h2
  exact h2

theorem contByte_and_128 (m : Nat) : ((m &&& 127) ||| 128) &&& 128 = 128 := by
  have h1 : (m &&& 127) &&& 128 = 0 :=
    land_128_eq_zero (by have := Nat.and_le_right (n := m) (m := 127); omega)
  rw [Nat.and_distrib_right, h1, Nat.and_self]
  simp

theorem contByte_and_127 (m : Nat) : ((m &&& 127) ||| 128) &&& 127 = m &&& 127 := by
  have h1 : (128 : Nat) &&& 127 = 0 := by decide
  rw [Nat.and_distrib_right, h1, Nat.and_assoc, Nat.and_self]
  simp

theorem lor_mul_two_pow {a b i : Nat} (h : a < 2 ^ i) : a ||| b * 2 ^ i = a + b * 2 ^ i := by
  rw [Nat.lor_comm, mul_comm b, ← Nat.mul_add_lt_is_or h b]
  ring

theorem toUint32_natCast {m : Nat} (h : m < 2 ^ 32) : toUint32 (m : Int) = m := by
  unfold toUint32
  omega

theorem toInt32_natCast {m : Nat} (h : m < 2 ^ 31) : toInt32 (m : Int) = (m : Int) := by
  unfold toInt32
  rw [toUint32_natCast (by omega), if_pos h]

theorem jsShl_natCast {b i : Nat} (hi : i < 32) (hb : b * 2 ^ i < 2 ^ 31) :
    jsShl (b : Int) i = ((b * 2 ^ i : Nat) : Int) := by
  have h1 : 1 ≤ 2 ^ i := Nat.one_le_two_pow
  have hb0 : b < 2 ^ 32 := by
    have h2 : b * 1 ≤ b * 2 ^ i := Nat.mul_le_mul_left b h1
    omega
  unfold jsShl
  rw [Nat.mod_eq_of_lt hi, toUint32_natCast hb0, Nat.shiftLeft_eq]
  exact toInt32_natCast hb

theorem jsOr_natCast {a b : Nat} (ha : a < 2 ^ 31) (hb : b < 2 ^ 31) :
    jsOr (a : Int) (b : Int) = ((a ||| b : Nat) : Int) := by
  unfold jsOr
  rw [toUint32_natCast (by omega), toUint32_natCast (by omega)]
  exact toInt32_natCast (Nat.or_lt_two_pow ha hb)

/-! The varint byte-count loop: fuel congruence and shape lemmas. -/

theorem varIntByteCountAux_ge_one (f m : Nat) : 1 ≤ varIntByteCountAux f m := by
  cases f with
  | zero => simp [varIntByteCountAux]
  | succ f =>
    simp only [varIntByteCountAux]
    split <;> omega

theorem varIntByteCountAux_congr :
    ∀ f g m : Nat, m < 2 ^ (7 * f) → m < 2 ^ (7 * g) →
      varIntByteCountAux f m = varIntByteCountAux g m := by
  intro f
  induction f with
  | zero =>
    intro g m hf _
    have hm : m = 0 := by norm_num at hf; exact hf
    subst hm
    cases g with
    | zero => rfl
    | succ g => simp [varIntByteCountAux]
  | succ f ih =>
    intro g m hf hg
    cases g with
    | zero =>
      have hm : m = 0 := by norm_num at hg; exact hg
      subst hm
      simp [varIntByteCountAux]
    | succ g =>
      simp only [varIntByteCountAux]
      by_cases h : 128 ≤ m
      · rw [if_pos h, if_pos h]
        have hdiv : ∀ k : Nat, m < 2 ^ (7 * (k + 1)) → m >>> 7 < 2 ^ (7 * k) := by
          intro k hk
          rw [Nat.shiftRight_eq_div_pow]
          rw [Nat.div_lt_iff_lt_mul (by norm_num : 0 < 2 ^ 7)]
          calc m < 2 ^ (7 * (k + 1)) := hk
            _ = 2 ^ (7 * k) * 2 ^ 7 := by rw [Nat.mul_succ, pow_add]
        congr 1
        exact ih g (m >>> 7) (hdiv f hf) (hdiv g hg)
      · rw [if_neg h, if_neg h]

theorem encodeVarint_nat_lt {m : Nat} (h : m < 128) : encodeVarint (m : Int) = [m] := by
  unfold encodeVarint varIntByteCount
  rw [if_neg (by omega)]
  show [toUint32 (m : Int) &&& 127] = [m]
  rw [toUint32_natCast (by omega), land127_eq_mod, Nat.mod_eq_of_lt h]

theorem encodeVarint_nat_ge {m : Nat} (h : 128 ≤ m) (h32 : m < 2 ^ 32) :
    encodeVarint (m : Int) = ((m &&& 127) ||| 128) :: encodeVarint ((m >>> 7 : Nat) : Int) := by
  have hsh32 : m >>> 7 < 2 ^ 32 := by
    have := shiftRight_le_self m 7
    omega
  have hsh25 : m >>> 7 < 2 ^ 25 := by
    rw [Nat.shiftRight_eq_div_pow]
    rw [Nat.div_lt_iff_lt_mul (by norm_num : 0 < 2 ^ 7)]
    calc m < 2 ^ 32 := h32
      _ = 2 ^ 25 * 2 ^ 7 := by norm_num
  have hbc2 : varIntByteCount ((m >>> 7 : Nat) : Int) = varIntByteCountAux 5 (m >>> 7) := by
    unfold varIntByteCount
    by_cases hc : 128 ≤ m >>> 7
    · rw [if_pos (by omega), toUint32_natCast hsh32]
      rw [show varIntByteCountAux 5 (m >>> 7)
            = if 128 ≤ m >>> 7 then 1 + varIntByteCountAux 4 (m >>> 7 >>> 7) else 1 from rfl]
      rw [if_pos hc]
      congr 1
      apply varIntByteCountAux_congr
      · have : m >>> 7 >>> 7 ≤ m >>> 7 := shiftRight_le_self _ 7
        calc m >>> 7 >>> 7 ≤ m >>> 7 := this
          _ < 2 ^ 25 := hsh25
          _ ≤ 2 ^ (7 * 5) := by norm_num
      · have h18 : m >>> 7 >>> 7 < 2 ^ 18 := by
          rw [Nat.shiftRight_eq_div_pow (m >>> 7) 7]
          rw [Nat.div_lt_iff_lt_mul (by norm_num : 0 < 2 ^ 7)]
          calc m >>> 7 < 2 ^ 25 := hsh25
            _ = 2 ^ 18 * 2 ^ 7 := by norm_num
        calc m >>> 7 >>> 7 < 2 ^ 18 := h18
          _ ≤ 2 ^ (7 * 4) := by norm_num
    · rw [if_neg (by omega)]
      rw [show varIntByteCountAux 5 (m >>> 7)
            = if 128 ≤ m >>> 7 then 1 + varIntByteCountAux 4 (m >>> 7 >>> 7) else 1 from rfl]
      rw [if_neg hc]
  unfold encodeVarint
  rw [show varIntByteCount (m : Int) = 1 + varIntByteCountAux 5 (toUint32 (m : Int) >>> 7) from
        by unfold varIntByteCount; rw [if_pos (by omega)]]
  rw [toUint32_natCast h32, hbc2]
  obtain ⟨c, hc⟩ : ∃ c, varIntByteCountAux 5 (m >>> 7) = c + 1 :=
    ⟨varIntByteCountAux 5 (m >>> 7) - 1, by have := varIntByteCountAux_ge_one 5 (m >>> 7); omega⟩
  rw [hc, show 1 + (c + 1) = c + 2 from by omega]
  show ((toUint32 (m : Int) &&& 127) ||| 128)
        :: encodeVarintLoop (c + 1) ((toUint32 (m : Int) >>> 7 : Nat) : Int) = _
  rw [toUint32_natCast h32]

/-- The single arithmetic step of decodeVarintLoop on in-range values. -/
theorem decodeVarint_step {acc b i : Nat} (hacc : acc < 2 ^ i) (hi : i < 32)
    (htot : acc + (b &&& 127) * 2 ^ i < 2 ^ 31) :
    jsOr (acc : Int) (jsShl (((b &&& 127) : Nat) : Int) i)
      = ((acc + (b &&& 127) * 2 ^ i : Nat) : Int) := by
  rw [jsShl_natCast hi (by omega), jsOr_natCast (by omega) (by omega)]
  rw [lor_mul_two_pow hacc]

/-- Decoding the varint encoding of m, appended to any suffix, on top of
an in-range accumulator, recovers the accumulator plus m at the current
shift and leaves exactly the suffix. -/
theorem decodeVarintLoop_encode (m : Nat) : ∀ (acc shift : Nat) (rest : List Nat),
    acc < 2 ^ shift → acc + m * 2 ^ shift < 2 ^ 31 →
    decodeVarintLoop (encodeVarint (m : Int) ++ rest) (acc : Int) shift
      = .ok (((acc + m * 2 ^ shift : Nat) : Int), rest) := by
  induction m using Nat.strong_induction_on with
  | _ m ih =>
    intro acc shift rest hacc htot
    have hone : 1 ≤ 2 ^ shift := Nat.one_le_two_pow
    have hacc31 : acc < 2 ^ 31 := by
      have : 0 ≤ m * 2 ^ shift := Nat.zero_le _
      omega
    by_cases h128 : m < 128
    · rw [encodeVarint_nat_lt h128, List.singleton_append]
      simp only [decodeVarintLoop]
      rw [if_pos (by rw [land_128_eq_zero h128]; rfl)]
      by_cases hm0 : m = 0
      · subst hm0
        have h00 : ((0 : Nat) &&& 127) = 0 := by decide
        rw [h00]
        have hz : jsShl ((0 : Nat) : Int) shift = ((0 : Nat) : Int) := by
          unfold jsShl
          rw [toUint32_natCast (by norm_num), Nat.zero_shiftLeft]
          exact toInt32_natCast (by norm_num)
        rw [hz, jsOr_natCast hacc31 (by norm_num)]
        norm_num
      · have hm1 : 1 ≤ m := by omega
        have hshift : shift < 31 := by
          by_contra hs
          have h31 : 2 ^ 31 ≤ 2 ^ shift := Nat.pow_le_pow_right (by norm_num) (by omega)
          have : 2 ^ shift ≤ m * 2 ^ shift := Nat.le_mul_of_pos_left _ (by omega)
          omega
        have hb : m &&& 127 = m := by rw [land127_eq_mod, Nat.mod_eq_of_lt h128]
        have hstep : acc + (m &&& 127) * 2 ^ shift < 2 ^ 31 := by rw [hb]; omega
        rw [decodeVarint_step hacc (by omega) hstep, hb]
    · have hm32 : m < 2 ^ 32 := by
        have : m * 1 ≤ m * 2 ^ shift := Nat.mul_le_mul_left m hone
        omega
      have hshift : shift < 31 := by
        by_contra hs
        have h31 : 2 ^ 31 ≤ 2 ^ shift := Nat.pow_le_pow_right (by norm_num) (by omega)
        have : 2 ^ shift ≤ m * 2 ^ shift := Nat.le_mul_of_pos_left _ (by omega)
        omega
      rw [encodeVarint_nat_ge (by omega) hm32, List.cons_append]
      simp only [decodeVarintLoop]
      rw [if_neg (by rw [contByte_and_128]; decide)]
      rw [contByte_and_127]
      have hstep : acc + (m &&& 127) * 2 ^ shift < 2 ^ 31 := by
        have h1 : m &&& 127 ≤ m := Nat.and_le_left
        have h2 : (m &&& 127) * 2 ^ shift ≤ m * 2 ^ shift := Nat.mul_le_mul_right _ h1
        omega
      rw [decodeVarint_step hacc (by omega) hstep]
      have hdm : m >>> 7 = m / 128 := by
        rw [Nat.shiftRight_eq_div_pow]
      have hmod : m &&& 127 = m % 128 := land127_eq_mod m
      have hlt : m >>> 7 < m := by
        rw [hdm]
        exact Nat.div_lt_self (by omega) (by norm_num)
      have hpow : (2 : Nat) ^ (shift + 7) = 2 ^ shift * 128 := by
        rw [pow_add]
        norm_num
      have hexp : m * 2 ^ shift = (m % 128) * 2 ^ shift + (m / 128) * (2 ^ shift * 128) := by
        have h1 := Nat.div_add_mod m 128
        calc m * 2 ^ shift = (128 * (m / 128) + m % 128) * 2 ^ shift := by rw [h1]
          _ = (m % 128) * 2 ^ shift + (m / 128) * (2 ^ shift * 128) := by ring
      have hacc2 : acc + (m &&& 127) * 2 ^ shift < 2 ^ (shift + 7) := by
        rw [hpow, hmod]
        have h1 : m % 128 ≤ 127 := by omega
        have h2 : (m % 128) * 2 ^ shift ≤ 127 * 2 ^ shift := Nat.mul_le_mul_right _ h1
        calc acc + (m % 128) * 2 ^ shift < 2 ^ shift + 127 * 2 ^ shift := by omega
          _ = 2 ^ shift * 128 := by ring
      have htot2 : (acc + (m &&& 127) * 2 ^ shift) + (m >>> 7) * 2 ^ (shift + 7) < 2 ^ 31 := by
        rw [hpow, hdm, hmod]
        omega
      have hrec := ih (m >>> 7) hlt (acc + (m &&& 127) * 2 ^ shift) (shift + 7) rest hacc2 htot2
      rw [hrec]
      have hval : acc + (m &&& 127) * 2 ^ shift + (m >>> 7) * 2 ^ (shift + 7)
          = acc + m * 2 ^ shift := by
        rw [hpow, hdm, hmod, hexp]
        omega
      rw [hval]

/-- Decoding an encoded in-range value from the start recovers the value
and consumes exactly the encoded bytes. -/
theorem decodeVarint_encode (n : Nat) (h : n < 2 ^ 31) (rest : List Nat) :
    decodeVarint (encodeVarint (n : Int) ++ rest) = .ok ((n : Int), rest) := by
  unfold decodeVarint
  have := decodeVarintLoop_encode n 0 0 rest (by norm_num) (by norm_num; omega)
  norm_num at this
  exact this

/-! Big integer codec lemmas. -/

theorem land_u64_eq_mod (m : Nat) : m &&& 0xffffffffffffffff = m % 2 ^ 64 := by
  have h := Nat.and_pow_two_sub_one_eq_mod m 64
  norm_num at h
  exact h

theorem readBytes8_bytes8BE {n : Nat} (h : n < 2 ^ 64) (rest : List Nat) :
    readBytes8 (bytes8BE n ++ rest) = .ok (n, rest) := by
  simp only [bytes8BE, List.cons_append, List.nil_append, readBytes8]
  have hval : n / 2 ^ 56 % 256 * 2 ^ 56 + n / 2 ^ 48 % 256 * 2 ^ 48 + n / 2 ^ 40 % 256 * 2 ^ 40
      + n / 2 ^ 32 % 256 * 2 ^ 32 + n / 2 ^ 24 % 256 * 2 ^ 24 + n / 2 ^ 16 % 256 * 2 ^ 16
      + n / 2 ^ 8 % 256 * 2 ^ 8 + n % 256 = n := by omega
  rw [hval]

theorem bigintChunkCountAux_pos_eq {f m : Nat} (hm : 0 < m) :
    bigintChunkCountAux (f+1) m = 1 + bigintChunkCountAux f (m >>> 64) := by
  simp [bigintChunkCountAux, hm]

theorem bigintChunkCountAux_zero_arg (f : Nat) : bigintChunkCountAux f 0 = 0 := by
  cases f <;> simp [bigintChunkCountAux]

theorem bigintChunkCountAux_bound : ∀ f m : Nat, bigintChunkCountAux f m < f →
    m < 2 ^ (64 * bigintChunkCountAux f m) := by
  intro f
  induction f with
  | zero =>
    intro m h
    simp [bigintChunkCountAux] at h
  | succ f ih =>
    intro m h
    by_cases hm : 0 < m
    · rw [bigintChunkCountAux_pos_eq hm] at h ⊢
      have h2 := ih (m >>> 64) (by omega)
      have hdm : m >>> 64 = m / 2 ^ 64 := Nat.shiftRight_eq_div_pow m 64
      have hsplit : m < 2 ^ 64 * (m >>> 64 + 1) := by
        rw [hdm]
        have hd := Nat.div_add_mod m (2 ^ 64)
        have hmod : m % 2 ^ 64 < 2 ^ 64 := Nat.mod_lt _ (by norm_num)
        omega
      calc m < 2 ^ 64 * (m >>> 64 + 1) := hsplit
        _ ≤ 2 ^ 64 * 2 ^ (64 * bigintChunkCountAux f (m >>> 64)) := by
            have hle : m >>> 64 + 1 ≤ 2 ^ (64 * bigintChunkCountAux f (m >>> 64)) := by omega
            exact Nat.mul_le_mul_left _ hle
        _ = 2 ^ (64 * (1 + bigintChunkCountAux f (m >>> 64))) := by
            rw [← pow_add]
            congr 1
            ring
    · have hm0 : m = 0 := by omega
      subst hm0
      rw [bigintChunkCountAux_zero_arg]
      norm_num

/-- Decoding the chunk list of m, appended to any suffix, on top of an
accumulator below the current shift, recovers the accumulator plus m at
the shift. -/
theorem decodeBigIntLoop_chunks :
    ∀ (f m : Nat), m < 2 ^ (64 * f) →
    ∀ (acc shift : Nat) (rest : List Nat), acc < 2 ^ shift →
    decodeBigIntLoop (bigintChunkCountAux f m)
        (bigintChunks (bigintChunkCountAux f m) m ++ rest) acc shift
      = .ok (acc + m * 2 ^ shift, rest) := by
  intro f
  induction f with
  | zero =>
    intro m hm acc shift rest hacc
    have hm0 : m = 0 := by norm_num at hm; exact hm
    subst hm0
    simp [bigintChunkCountAux, bigintChunks, decodeBigIntLoop]
  | succ f ih =>
    intro m hm acc shift rest hacc
    by_cases hm0 : 0 < m
    · have hdm : m >>> 64 = m / 2 ^ 64 := Nat.shiftRight_eq_div_pow m 64
      have hmlt : m >>> 64 < 2 ^ (64 * f) := by
        rw [hdm, Nat.div_lt_iff_lt_mul (by norm_num : 0 < 2 ^ 64)]
        calc m < 2 ^ (64 * (f + 1)) := hm
          _ = 2 ^ (64 * f) * 2 ^ 64 := by ring
      rw [bigintChunkCountAux_pos_eq hm0]
      rw [show 1 + bigintChunkCountAux f (m >>> 64)
            = bigintChunkCountAux f (m >>> 64) + 1 from by omega]
      rw [show bigintChunks (bigintChunkCountAux f (m >>> 64) + 1) m
            = bytes8BE (m &&& 0xffffffffffffffff)
              ++ bigintChunks (bigintChunkCountAux f (m >>> 64)) (m >>> 64) from rfl]
      rw [List.append_assoc]
      simp only [decodeBigIntLoop]
      rw [land_u64_eq_mod, readBytes8_bytes8BE (Nat.mod_lt _ (by norm_num)) _]
      show decodeBigIntLoop (bigintChunkCountAux f (m >>> 64))
            (bigintChunks (bigintChunkCountAux f (m >>> 64)) (m >>> 64) ++ rest)
            (acc ||| (m % 2 ^ 64) <<< shift) (shift + 64) = _
      rw [show acc ||| (m % 2 ^ 64) <<< shift = acc + (m % 2 ^ 64) * 2 ^ shift from by
            rw [Nat.shiftLeft_eq]; exact lor_mul_two_pow hacc]
      have hpow : (2 : Nat) ^ (shift + 64) = 2 ^ shift * 2 ^ 64 := by
        rw [pow_add]
      have hacc2 : acc + (m % 2 ^ 64) * 2 ^ shift < 2 ^ (shift + 64) := by
        rw [hpow]
        have h1 : m % 2 ^ 64 ≤ 2 ^ 64 - 1 := by
          have := Nat.mod_lt m (show 0 < 2 ^ 64 from by norm_num)
          omega
        have h2 : (m % 2 ^ 64) * 2 ^ shift ≤ (2 ^ 64 - 1) * 2 ^ shift :=
          Nat.mul_le_mul_right _ h1
        have h3 : 2 ^ shift + (2 ^ 64 - 1) * 2 ^ shift = 2 ^ shift * 2 ^ 64 := by
          have h4 : (1 : Nat) ≤ 2 ^ 64 := Nat.one_le_two_pow
          calc 2 ^ shift + (2 ^ 64 - 1) * 2 ^ shift = (1 + (2 ^ 64 - 1)) * 2 ^ shift := by ring
            _ = 2 ^ 64 * 2 ^ shift := by norm_num
            _ = 2 ^ shift * 2 ^ 64 := by ring
        omega
      have hexp : m * 2 ^ shift
          = (m % 2 ^ 64) * 2 ^ shift + (m / 2 ^ 64) * (2 ^ shift * 2 ^ 64) := by
        have h1 := Nat.div_add_mod m (2 ^ 64)
        calc m * 2 ^ shift = (2 ^ 64 * (m / 2 ^ 64) + m % 2 ^ 64) * 2 ^ shift := by rw [h1]
          _ = (m % 2 ^ 64) * 2 ^ shift + (m / 2 ^ 64) * (2 ^ shift * 2 ^ 64) := by ring
      have hrec := ih (m >>> 64) hmlt (acc + (m % 2 ^ 64) * 2 ^ shift) (shift + 64) rest hacc2
      rw [hrec]
      have hval : acc + (m % 2 ^ 64) * 2 ^ shift + (m >>> 64) * 2 ^ (shift + 64)
          = acc + m * 2 ^ shift := by
        rw [hpow, hdm, hexp]
        omega
      rw [hval]
    · have hm00 : m = 0 := by omega
      subst hm00
      rw [bigintChunkCountAux_zero_arg]
      simp [bigintChunks, decodeBigIntLoop]

/-! Dispatch lemmas: decodeImpl on the two big integer tags. -/

theorem decodeImpl_bigintP (k : Nat) (bs : List Nat) (st : DecSt) :
    decodeImpl [] (k+1) (BIGINTP :: bs) st
      = match decodeBigInt bs with
        | .error e => .error e
        | .ok (m, bs2) => .ok (.bigint (m : Int), bs2, st) := by
  show decodeImpl [] (k+1) ((11 : Nat) :: bs) st = _
  simp only [decodeImpl, NULL, UNDEFINED, TRUE, FALSE, REFERENCE, NUMBER, DATE, REGEXP,
    BIGINTP, BIGINTN, STRING]
  norm_num

theorem decodeImpl_bigintN (k : Nat) (bs : List Nat) (st : DecSt) :
    decodeImpl [] (k+1) (BIGINTN :: bs) st
      = match decodeBigInt bs with
        | .error e => .error e
        | .ok (m, bs2) => .ok (.bigint (-(m : Int)), bs2, st) := by
  show decodeImpl [] (k+1) ((10 : Nat) :: bs) st = _
  simp only [decodeImpl, NULL, UNDEFINED, TRUE, FALSE, REFERENCE, NUMBER, DATE, REGEXP,
    BIGINTP, BIGINTN, STRING]
  norm_num

/-- Claim C9: for every non-negative integer n below 2 to the 31st power,
decoding the varint encoding of n yields n back and consumes exactly the
number of bytes that the encoder produced for n: with any suffix appended
after the encoding, the decoder returns n and leaves exactly that suffix. -/
theorem claim9_varint_roundtrip (n : Nat) (h : n < 2 ^ 31) (rest : List Nat) :
    decodeVarint (encodeVarint (n : Int) ++ rest) = .ok ((n : Int), rest) :=
  decodeVarint_encode n h rest

/-- Witness for claim C9 at the concrete input 300 with the suffix [9]. -/
theorem claim9_witness :
    (300 : Nat) < 2 ^ 31 ∧
      decodeVarint (encodeVarint ((300 : Nat) : Int) ++ [9]) = .ok (((300 : Nat) : Int), [9]) :=
  ⟨by norm_num, claim9_varint_roundtrip 300 (by norm_num) [9]⟩

/-- Claim C10: encoding the big integer zero produces exactly two bytes,
the positive-big-integer tag followed by a chunk count of 0 (zero never
takes the negative branch), and decoding those bytes yields zero again. -/
theorem claim10_bigint_zero :
    encodeBigInt 0 = .ok [BIGINTP, 0] ∧
      decodeImpl [] 1 [BIGINTP, 0] ⟨[], []⟩ = .ok (.bigint 0, [], ⟨[], []⟩) := by
  exact ⟨by decide, by decide⟩

/-- Claim C4 (amended): encoding a big integer whose magnitude occupies
exactly 255 64-bit chunks succeeds and round-trips through decode, while
encoding a big integer whose magnitude requires 256 or more 64-bit chunks
fails with the NotSerializable error carrying the offending big integer.
The claim as frozen names this failure BigIntTooLarge; src/es-codec.ts
has no such class and throws NotSerializable here, while the distributed
build es-codec.js names the same failure BigIntTooLargeError. -/
theorem claim4_bigint_boundary (b : Int) :
    (bigintChunkCount (bigintMagnitude b) = 255 →
      ∃ bytes, encodeBigInt b = .ok bytes ∧
        decodeImpl [] 1 bytes ⟨[], []⟩ = .ok (.bigint b, [], ⟨[], []⟩)) ∧
    (256 ≤ bigintChunkCount (bigintMagnitude b) →
      encodeBigInt b = .error (.notSerializable (.bigint b))) := by
  constructor
  · intro h255
    have haux : bigintChunkCountAux 257 (bigintMagnitude b) = 255 := h255
    have hmlt : bigintMagnitude b < 2 ^ (64 * 255) := by
      have hb := bigintChunkCountAux_bound 257 (bigintMagnitude b) (by rw [haux]; norm_num)
      rw [haux] at hb
      exact hb
    have hmlt2 : bigintMagnitude b < 2 ^ (64 * 257) := by
      calc bigintMagnitude b < 2 ^ (64 * 255) := hmlt
        _ ≤ 2 ^ (64 * 257) := Nat.pow_le_pow_right (by norm_num) (by norm_num)
    have hchunks := decodeBigIntLoop_chunks 257 (bigintMagnitude b) hmlt2 0 0 [] (by norm_num)
    rw [List.append_nil] at hchunks
    norm_num at hchunks
    have henc : encodeBigInt b
        = .ok ((if b < 0 then BIGINTN else BIGINTP)
               :: bigintChunkCount (bigintMagnitude b)
               :: bigintChunks (bigintChunkCount (bigintMagnitude b)) (bigintMagnitude b)) := by
      simp only [encodeBigInt]
      rw [if_neg (by omega)]
    have hdecBig : decodeBigInt (bigintChunkCount (bigintMagnitude b)
          :: bigintChunks (bigintChunkCount (bigintMagnitude b)) (bigintMagnitude b))
        = .ok (bigintMagnitude b, []) := by
      show decodeBigIntLoop (bigintChunkCount (bigintMagnitude b))
            (bigintChunks (bigintChunkCount (bigintMagnitude b)) (bigintMagnitude b)) 0 0 = _
      exact hchunks
    refine ⟨_, henc, ?_⟩
    by_cases hneg : b < 0
    · have hmag : ((bigintMagnitude b : Nat) : Int) = -b := by
        unfold bigintMagnitude
        rw [if_pos hneg]
        omega
      rw [if_pos hneg, decodeImpl_bigintN 0 _ _, hdecBig]
      show Except.ok (JSVal.bigint (-((bigintMagnitude b : Nat) : Int)), ([] : List Nat),
            (⟨[], []⟩ : DecSt)) = _
      rw [hmag, neg_neg]
    · have hmag : ((bigintMagnitude b : Nat) : Int) = b := by
        unfold bigintMagnitude
        rw [if_neg hneg]
        omega
      rw [if_neg hneg, decodeImpl_bigintP 0 _ _, hdecBig]
      show Except.ok (JSVal.bigint ((bigintMagnitude b : Nat) : Int), ([] : List Nat),
            (⟨[], []⟩ : DecSt)) = _
      rw [hmag]
  · intro h256
    simp only [encodeBigInt]
    rw [if_pos (by omega)]

theorem bigintMagnitude_natCast (m : Nat) : bigintMagnitude ((m : Nat) : Int) = m := by
  unfold bigintMagnitude
  rw [if_neg (by omega)]
  omega

theorem bigintChunkCountAux_two_pow : ∀ k f : Nat, k < f →
    bigintChunkCountAux f (2 ^ (64 * k)) = k + 1 := by
  intro k
  induction k with
  | zero =>
    intro f hf
    obtain ⟨f2, rfl⟩ : ∃ f2, f = f2 + 1 := ⟨f - 1, by omega⟩
    rw [show (2 : Nat) ^ (64 * 0) = 1 from by norm_num]
    rw [bigintChunkCountAux_pos_eq (by norm_num)]
    rw [show (1 : Nat) >>> 64 = 0 from by decide]
    rw [bigintChunkCountAux_zero_arg]
  | succ k ih =>
    intro f hf
    obtain ⟨f2, rfl⟩ : ∃ f2, f = f2 + 1 := ⟨f - 1, by omega⟩
    rw [bigintChunkCountAux_pos_eq (pow_pos (by norm_num) _)]
    have hs : (2 ^ (64 * (k + 1)) : Nat) >>> 64 = 2 ^ (64 * k) := by
      rw [Nat.shiftRight_eq_div_pow]
      rw [show 64 * (k + 1) = 64 * k + 64 from by ring, pow_add]
      exact Nat.mul_div_cancel _ (by norm_num)
    rw [hs, ih f2 (by omega)]
    omega

theorem bigintChunkCount_pow254 : bigintChunkCount ((2 : Nat) ^ (64 * 254)) = 255 := by
  unfold bigintChunkCount
  rw [bigintChunkCountAux_two_pow 254 257 (by norm_num)]

theorem bigintChunkCount_pow255 : bigintChunkCount ((2 : Nat) ^ (64 * 255)) = 256 := by
  unfold bigintChunkCount
  rw [bigintChunkCountAux_two_pow 255 257 (by norm_num)]

/-- Witness for claim C4 at the 255-chunk magnitude 2 to the 16256 and
the 256-chunk magnitude 2 to the 16320. -/
theorem claim4_witness :
    (∃ bytes, encodeBigInt ((2 ^ (64 * 254) : Nat) : Int) = .ok bytes ∧
        decodeImpl [] 1 bytes ⟨[], []⟩
          = .ok (.bigint ((2 ^ (64 * 254) : Nat) : Int), [], ⟨[], []⟩)) ∧
    encodeBigInt ((2 ^ (64 * 255) : Nat) : Int)
      = .error (.notSerializable (.bigint ((2 ^ (64 * 255) : Nat) : Int))) :=
  ⟨(claim4_bigint_boundary _).1
    (by rw [bigintMagnitude_natCast]; exact bigintChunkCount_pow254),
   (claim4_bigint_boundary _).2
    (by rw [bigintMagnitude_natCast, bigintChunkCount_pow255])⟩

/-- Counterexample for claim C4 as stated: on a big integer of 256
chunks, src/es-codec.ts throws its NotSerializable error, not a distinct
BigIntTooLarge error kind. -/
theorem claim4_counterexample :
    encodeBigInt ((2 ^ (64 * 255) : Nat) : Int)
        = .error (.notSerializable (.bigint ((2 ^ (64 * 255) : Nat) : Int))) ∧
      encodeBigInt ((2 ^ (64 * 255) : Nat) : Int)
        ≠ .error (.bigIntTooLarge (.bigint ((2 ^ (64 * 255) : Nat) : Int))) := by
  have h : encodeBigInt ((2 ^ (64 * 255) : Nat) : Int)
      = .error (.notSerializable (.bigint ((2 ^ (64 * 255) : Nat) : Int))) := by
    simp only [encodeBigInt]
    rw [if_pos (by rw [bigintMagnitude_natCast, bigintChunkCount_pow255]; norm_num)]
  refine ⟨h, ?_⟩
  rw [h]
  simp

/-! Typed view codec lemmas for claim C8. -/

theorem except_bind_ok {a b g : Type} (x : a) (f : a → Except g b) :
    (Except.ok x >>= f) = f x := rfl

theorem bytesPerElement_pos {t : Nat} (h1 : 65 ≤ t) (h2 : t ≤ 76) :
    1 ≤ bytesPerElement t := by
  interval_cases t <;> decide

theorem constructorOfTypedArray_view {t : Nat} (h1 : 65 ≤ t) (h2 : t ≤ 76) :
    constructorOfTypedArray t = .ok t := by
  interval_cases t <;> rfl

theorem mkTypedArray_ok {tag : Nat} {buf : List Nat} {off len : Nat}
    (halign : off % bytesPerElement tag = 0)
    (hbound : off + len * bytesPerElement tag ≤ buf.length) :
    mkTypedArray tag buf (off : Int) (len : Int) = .ok (.view tag buf off len) := by
  unfold mkTypedArray
  rw [Int.toNat_natCast, Int.toNat_natCast]
  rw [if_neg (by omega)]
  rw [if_pos ⟨halign, hbound⟩]

/-- Claim C8: for every typed element view, the encoder emits the
element-type tag, then varints of the underlying buffer byte length, the
view byte offset and the element count (byte length for the neutral
DataView), followed by all bytes of the underlying buffer; the decoder
reads those fields back, allocates a new buffer from exactly those bytes,
constructs the view over it at the recorded offset with the recorded
count, and pushes it into the referrable table.  The hypotheses say the
view tag is one of the twelve view constructors and that the view is a
valid window over its buffer, as every host-constructed view is. -/
theorem claim8_typed_view (tag : Nat) (buf : List Nat) (off len : Nat)
    (rest : List Nat) (st : DecSt)
    (htag1 : DATAVIEW ≤ tag) (htag2 : tag ≤ BIGUINT64ARRAY)
    (halign : off % bytesPerElement tag = 0)
    (hbound : off + len * bytesPerElement tag ≤ buf.length)
    (hsize : buf.length < 2 ^ 31) :
    encodeTypedArray tag buf off len
      = tag :: (encodeVarint (buf.length : Int) ++ encodeVarint (off : Int)
                ++ encodeVarint (len : Int) ++ buf) ∧
    decodeTypedArray tag ((encodeVarint (buf.length : Int) ++ encodeVarint (off : Int)
                ++ encodeVarint (len : Int) ++ buf) ++ rest) st
      = .ok (.obj st.heap.length, rest,
             ⟨st.heap ++ [.view tag buf off len],
              st.referrables ++ [.obj st.heap.length]⟩) := by
  have h1 : (65 : Nat) ≤ tag := htag1
  have h2 : tag ≤ 76 := htag2
  have hsz1 : 1 ≤ bytesPerElement tag := bytesPerElement_pos h1 h2
  have hoff : off < 2 ^ 31 := by
    have h0 : 0 ≤ len * bytesPerElement tag := Nat.zero_le _
    omega
  have hlen : len < 2 ^ 31 := by
    have h3 : len * 1 ≤ len * bytesPerElement tag := Nat.mul_le_mul_left len hsz1
    omega
  refine ⟨rfl, ?_⟩
  unfold decodeTypedArray
  rw [List.append_assoc, List.append_assoc, List.append_assoc]
  rw [decodeVarint_encode buf.length hsize _]
  simp only [except_bind_ok]
  rw [decodeVarint_encode off hoff _]
  simp only [except_bind_ok]
  rw [decodeVarint_encode len hlen _]
  simp only [except_bind_ok]
  rw [Int.toNat_natCast, List.take_left, List.drop_left]
  rw [constructorOfTypedArray_view h1 h2]
  simp only [except_bind_ok]
  rw [mkTypedArray_ok halign hbound]
  simp only [except_bind_ok]

/-- Witness for claim C8: an eight-element unsigned byte view at offset 2
over a ten-byte buffer, with a trailing suffix byte. -/
theorem claim8_witness :
    encodeTypedArray UINT8ARRAY [5, 6, 7, 8, 9, 10, 11, 12, 13, 14] 2 8
      = UINT8ARRAY :: (encodeVarint ((10 : Nat) : Int) ++ encodeVarint ((2 : Nat) : Int)
                ++ encodeVarint ((8 : Nat) : Int) ++ [5, 6, 7, 8, 9, 10, 11, 12, 13, 14]) ∧
    decodeTypedArray UINT8ARRAY ((encodeVarint ((10 : Nat) : Int)
                ++ encodeVarint ((2 : Nat) : Int) ++ encodeVarint ((8 : Nat) : Int)
                ++ [5, 6, 7, 8, 9, 10, 11, 12, 13, 14]) ++ [77]) ⟨[], []⟩
      = .ok (.obj 0, [77],
             ⟨[.view UINT8ARRAY [5, 6, 7, 8, 9, 10, 11, 12, 13, 14] 2 8], [.obj 0]⟩) :=
  claim8_typed_view UINT8ARRAY [5, 6, 7, 8, 9, 10, 11, 12, 13, 14] 2 8 [77] ⟨[], []⟩
    (by decide) (by decide) (by decide) (by decide) (by decide)

/-- Counterexample for claim C6 as stated: on the negative input -1 the
varint encoder raises no error (it is a total function into byte lists)
and emits the single byte 0x7f. -/
theorem claim6_counterexample : encodeVarint (-1) = [127] := by decide

/-- Claim C6 (amended): the varint encoder does not reject negative
inputs: for every negative integer it raises no error and emits a single
byte holding the low seven bits of the 32-bit conversion of the input.
src/es-codec.ts has no sign check in encodeVarint (only the older draft
src/src/index.ts throws on negatives), and no internal call site passes a
negative value. -/
theorem claim6_negative_varint (num : Int) (h : num < 0) :
    encodeVarint num = [toUint32 num &&& 127] := by
  unfold encodeVarint varIntByteCount
  rw [if_neg (by omega)]
  rfl

/-- Witness for claim C6 at the input -1. -/
theorem claim6_witness : (-1 : Int) < 0 ∧ encodeVarint (-1) = [toUint32 (-1) &&& 127] :=
  ⟨by norm_num, claim6_negative_varint (-1) (by norm_num)⟩

/-- Counterexample for claim C5 as stated: an array with an empty slot is
rejected with the NotSerializable error, not with a distinct
MalformedSequence error kind. -/
theorem claim5_counterexample :
    encode [HNode.arr [some .null, none] []] 1 (.obj 0)
        = .error (.notSerializable (.obj 0)) ∧
      encode [HNode.arr [some .null, none] []] 1 (.obj 0)
        ≠ .error (.malformedArray (.obj 0)) := by
  exact ⟨by decide, by decide⟩

/-- Claim C5 (amended): for every array whose length differs from the
count of its own enumerable keys (extra own keys or empty slots), the
encoder rejects it before emitting anything, failing with the
NotSerializable error carrying the offending array.  The claim as frozen
names this error MalformedSequence; src/es-codec.ts has no such class and
throws NotSerializable at this check, while the distributed build
es-codec.js names it MalformedArrayError. -/
theorem claim5_malformed_array (H : Heap) (i k : Nat) (elems : List (Option JSVal))
    (extraProps : List (String × JSVal))
    (hnode : H[i]? = some (.arr elems extraProps))
    (hmal : elems.length ≠ (elems.filterMap fun v => v).length + extraProps.length) :
    encode H (k + 1) (.obj i) = .error (.notSerializable (.obj i)) := by
  unfold encode
  simp only [encodeImpl, hnode, maybeEncodeReference, indexOfJs, List.findIdx?]
  rw [if_pos hmal]
  rfl

/-- Witness for claim C5 at a one-slot array carrying one extra own
enumerable property named x. -/
theorem claim5_witness :
    (([HNode.arr [some .null] [("x", .null)]] : Heap)[0]?
        = some (.arr [some .null] [("x", .null)])) ∧
    ([some (JSVal.null)].length
        ≠ ([some (JSVal.null)].filterMap fun v => v).length + [("x", JSVal.null)].length) ∧
    encode [HNode.arr [some .null] [("x", .null)]] 1 (.obj 0)
      = .error (.notSerializable (.obj 0)) :=
  ⟨by rfl, by decide, claim5_malformed_array _ 0 0 _ _ (by rfl) (by decide)⟩

/-! Claim C7 pieces: decoding a string tag, a concrete string body, and
the extension lookup loop. -/

theorem decodeImpl_string (exts : List DecExt) (k : Nat) (bs : List Nat) (st : DecSt) :
    decodeImpl exts (k+1) (STRING :: bs) st
      = match decodeString bs with
        | .error e => .error e
        | .ok (s, bs2) => .ok (.str s, bs2, st) := by
  show decodeImpl exts (k+1) ((9 : Nat) :: bs) st = _
  simp only [decodeImpl, NULL, UNDEFINED, TRUE, FALSE, REFERENCE, NUMBER, DATE, REGEXP,
    BIGINTP, BIGINTN, STRING]
  norm_num

theorem decodeString_concrete (cs rest : List Nat) (s : String)
    (hlen : cs.length < 128) (hdec : utf8Decode cs = s) :
    decodeString ((cs.length :: cs) ++ rest) = .ok (s, rest) := by
  have h1 := decodeVarint_encode cs.length (by omega) (cs ++ rest)
  rw [encodeVarint_nat_lt hlen] at h1
  unfold decodeString
  rw [show (cs.length :: cs) ++ rest = [cs.length] ++ (cs ++ rest) from by simp]
  rw [h1]
  simp only [except_bind_ok]
  rw [if_neg (by omega)]
  rw [Int.toNat_natCast]
  rw [if_neg (by simp)]
  rw [List.take_left, List.drop_left, hdec]

theorem decodeExtGo_miss (fuel : Nat) (s : String) (bytes : List Nat) (st : DecSt) :
    ∀ exts : List DecExt, (∀ e ∈ exts, e.name ≠ s) →
      decodeExtGo fuel (.str s) bytes st exts = .error .unreachable := by
  intro exts
  induction exts with
  | nil => intro h; rfl
  | cons e rest ih =>
    intro h
    have hne : e.name ≠ s := h e (by simp)
    have hfalse : jsStrictEq (.str e.name) (.str s) = false := by
      simp only [jsStrictEq, beq_eq_false_iff_ne, ne_eq, JSVal.str.injEq]
      exact hne
    simp only [decodeExtGo, hfalse, Bool.false_eq_true, if_false]
    exact ih fun x hx => h x (List.mem_cons_of_mem e hx)

/-- Counterexample for claim C7 as stated: decoding an extension tag with
the unregistered name foo in the default codec throws the internal
Unreachable error, which carries nothing, not an IncompatibleCodec error
carrying the name. -/
theorem claim7_counterexample :
    decodeImpl [] 2 (EXTENSION :: encodeString "foo") ⟨[], []⟩ = .error .unreachable ∧
      decodeImpl [] 2 (EXTENSION :: encodeString "foo") ⟨[], []⟩
        ≠ .error (.incompatibleCodec "foo") := by
  exact ⟨by decide, by decide⟩

theorem decodeImpl_extTag (exts : List DecExt) (k : Nat) (bs : List Nat) (st : DecSt) :
    decodeImpl exts (k+1) (EXTENSION :: bs) st
      = match decodeImpl exts k bs st with
        | .error e => .error e
        | .ok (name, bs2, st2) => decodeExtGo k name bs2 st2 exts := by
  have ha : (128 : Nat) &&& 32 = 0 := by decide
  have hb : (128 : Nat) &&& 64 = 0 := by decide
  have hc : (128 : Nat) &&& 128 = 128 := by decide
  show decodeImpl exts (k+1) ((128 : Nat) :: bs) st = _
  simp only [decodeImpl, NULL, UNDEFINED, TRUE, FALSE, REFERENCE, NUMBER, DATE, REGEXP,
    BIGINTP, BIGINTN, STRING, ARRAY, OBJECT, SET, MAP, ERROR, ARRAYBUFFER, EXTENSION,
    ha, hb, hc]
  norm_num
  rcases hres : decodeImpl exts k bs st with e | ⟨name, bs2, st2⟩ <;> rfl

/-- Claim C7 (amended): when the decoder encounters an extension tag
(0x80) whose decoded name string is not registered in the current codec,
decode fails with the internal Unreachable error; the name is not
attached to the error.  The statement quantifies over every unregistered
decoded name string s: decodeImpl reads the extension tag, decodes the
name by the recursive call exactly as src/es-codec.ts does, and when
that call yields the string s and the lookup loop over the registered
extensions finds no extension named s, control reaches the final throw
of Unreachable.  The IncompatibleCodec class carrying the name exists
only in the distributed build es-codec.js. -/
theorem claim7_unknown_extension (exts : List DecExt) (k : Nat) (bs bs2 : List Nat)
    (st st2 : DecSt) (s : String)
    (hname : decodeImpl exts k bs st = .ok (.str s, bs2, st2))
    (h : ∀ e ∈ exts, e.name ≠ s) :
    decodeImpl exts (k + 1) (EXTENSION :: bs) st = .error .unreachable := by
  rw [decodeImpl_extTag exts k bs st, hname]
  exact decodeExtGo_miss k s bs2 st2 exts h

/-- Witness for claim C7 in the default codec, which registers no
extensions, at the concrete unregistered name foo. -/
theorem claim7_witness :
    decodeImpl [] 1 (encodeString "foo") ⟨[], []⟩ = .ok (.str "foo", [], ⟨[], []⟩) ∧
      (∀ e ∈ ([] : List DecExt), e.name ≠ "foo") ∧
      decodeImpl [] 2 (EXTENSION :: encodeString "foo") ⟨[], []⟩ = .error .unreachable :=
  ⟨by decide, by simp,
    claim7_unknown_extension [] 1 (encodeString "foo") [] ⟨[], []⟩ ⟨[], []⟩ "foo"
      (by decide) (by simp)⟩

/-- Claim C1 (the code violates it): the round-trip invariant fails on
the value v = [e, a, a] where e is new Error with message m, stack s and
no cause, and a = [] is one empty array appearing twice.  Encoding
succeeds and assigns referrable-table indices 0, 1, 2 to the outer
array, the error and a; the back-reference for the third element is
written as index 2.  The decoder never appends the decoded error to its
referrable table (decodeError in src/es-codec.ts returns without
pushing), so its table holds only the outer array and a, and index 2
reads as undefined: the decoded value is [e, a, undefined], which is not
structurally equal to v under any variant-respecting deep equality. -/
theorem claim1_roundtrip_bug :
    encode [.arr [some (.obj 1), some (.obj 2), some (.obj 2)] [],
            .err .base "m" (some "s") .undef, .arr [] []] 10 (.obj 0)
      = .ok [12, 3, 32, 9, 1, 109, 9, 1, 115, 2, 12, 0, 5, 2] ∧
    decode 10 [12, 3, 32, 9, 1, 109, 9, 1, 115, 2, 12, 0, 5, 2]
      = .ok (.obj 0, [],
          ⟨[.arr [some (.obj 1), some (.obj 2), some .undef] [],
            .err .base "m" (some "s") .undef, .arr [] []],
           [.obj 0, .obj 2]⟩) := by
  exact ⟨by decide, by decide⟩

/-- Claim C2 (the code violates it): the decoder must append each
referrable composite to its table before decoding the children of the
composite; for the error e with e.cause = e (the cycle the repository
test file tests/errors.js checks under the name Error - cause self), the
encoder assigns e table index 0 and writes the cause as a back-reference
to index 0, but the decoder decodes the cause before the error shell
exists anywhere: its referrable table is still empty, index 0 reads as
undefined, and the decoded error ends with cause undefined and is never
pushed at all (the final decoder table is empty, while the encoder table
held the error at index 0).  The draft decodeError in
src/unnamed/part_017 pushes only after decoding the cause and fails on
this input the same way. -/
theorem claim2_error_table_bug :
    encode [.err .base "test" (some "s") (.obj 0)] 10 (.obj 0)
      = .ok [32, 9, 4, 116, 101, 115, 116, 9, 1, 115, 5, 0] ∧
    decode 10 [32, 9, 4, 116, 101, 115, 116, 9, 1, 115, 5, 0]
      = .ok (.obj 0, [],
          ⟨[.err .base "test" (some "s") .undef], []⟩) := by
  exact ⟨by decide, by decide⟩

/-- Claim C3 (the code violates it): identity preservation fails on the
record with fields a and b both holding the same error object e.  The
encoder assigns table indices 0 (the record) and 1 (the error) and
writes field b as a back-reference to index 1; the decoder never appends
the decoded error to its table, so index 1 is out of range and reads as
undefined: in the decoded record the two fields are an error object and
undefined, not two references to one object.  (The special case of a
record referencing itself decodes correctly, because record shells are
pushed; the universally quantified claim fails on error objects.) -/
theorem claim3_identity_bug :
    encode [.objRec [("a", .obj 1), ("b", .obj 1)],
            .err .base "m" (some "s") .undef] 10 (.obj 0)
      = .ok [13, 2, 9, 1, 97, 32, 9, 1, 109, 9, 1, 115, 2, 9, 1, 98, 5, 1] ∧
    decode 10 [13, 2, 9, 1, 97, 32, 9, 1, 109, 9, 1, 115, 2, 9, 1, 98, 5, 1]
      = .ok (.obj 0, [],
          ⟨[.objRec [("a", .obj 1), ("b", .undef)], .err .base "m" (some "s") .undef],
           [.obj 0]⟩) := by
  exact ⟨by decide, by decide⟩

end EsCodec
